import Mathlib

/-!
Shallow embedding of `scripts/cloud-init-upstream-release.py` (and the parts of
`scripts/lp_create_bug.py` it uses), together with theorems about the cache,
templating, version-policy and stage-gating behaviour of the script.

Python strings are modelled as `List Char`; machine-level string primitives
(`str.split`, `str.splitlines`, `str.strip`, `str.lower`, `str.join`, `int()`)
are modelled by executable functions below.  Fallible Python code (operations
that can raise `KeyError` / `ValueError` / `TypeError` / `IndexError`) returns
`Option`.
-/

/-- Python `str.lower` restricted to ASCII letters (the script only lowercases
operator responses typed at a terminal). -/
def pyLowerChar (c : Char) : Char :=
  if 'A' ≤ c ∧ c ≤ 'Z' then Char.ofNat (c.toNat + 32) else c

/-- Python `str.lower` on a whole string. -/
def pyLower (s : List Char) : List Char := s.map pyLowerChar

/-- Characters removed by Python `str.strip()` / `str.rstrip()` (whitespace). -/
def pyIsSpace (c : Char) : Bool :=
  c == ' ' || c == '\t' || c == '\n' || c == '\r' || c == '\x0B' || c == '\x0C' ||
  c == '\x1C' || c == '\x1D' || c == '\x1E' || c == '\x1F' || c == '\x85' || c == '\xA0'

/-- Python `str.lstrip()`. -/
def pyLstrip (s : List Char) : List Char := s.dropWhile pyIsSpace

/-- Python `str.rstrip()`. -/
def pyRstrip (s : List Char) : List Char := (s.reverse.dropWhile pyIsSpace).reverse

/-- Python `str.strip()`. -/
def pyStrip (s : List Char) : List Char := pyRstrip (pyLstrip s)

/-- Does the second list start with the first?  Substring-matching helper for
the Python `str.split` model. -/
def isPre : List Char → List Char → Bool
  | [], _ => true
  | _ :: _, [] => false
  | a :: s, b :: t => a == b && isPre s t

/-- Index of the leftmost occurrence of `sep` in the string, as used by Python
`str.split(sep)` scanning left to right. -/
def firstMatch (sep : List Char) : List Char → Option Nat
  | [] => if isPre sep [] then some 0 else none
  | c :: s => if isPre sep (c :: s) then some 0 else (firstMatch sep s).map (· + 1)

/-- Python `str.split(sep)` for a nonempty `sep`, written with explicit fuel so
that it is structurally recursive; each split consumes at least one character
of the scanned string, so fuel `s.length + 1` always suffices (see `pySplit`). -/
def pySplitFuel (sep : List Char) : Nat → List Char → List (List Char)
  | 0, s => [s]
  | f + 1, s =>
    match firstMatch sep s with
    | none => [s]
    | some i => s.take i :: pySplitFuel sep f (s.drop (i + sep.length))

/-- Python `str.split(sep)` for a nonempty separator. -/
def pySplit (sep s : List Char) : List (List Char) := pySplitFuel sep (s.length + 1) s

/-- `sep` occurs in `s` as a contiguous substring. -/
def OccursIn (sep s : List Char) : Prop := ∃ a b, s = a ++ sep ++ b

/-- Executable substring test (Python `sep in s`). -/
def containsSub (sep s : List Char) : Bool := (firstMatch sep s).isSome

/-- Line-boundary characters recognised by Python `str.splitlines`. -/
def isLineBoundary (c : Char) : Bool :=
  c == '\n' || c == '\r' || c == '\x0B' || c == '\x0C' ||
  c == '\x1C' || c == '\x1D' || c == '\x1E' || c == '\x85' || c == '\u2028' || c == '\u2029'

/-- Fuse the two-character boundary CR LF into a single newline; Python
`str.splitlines` treats `"\r\n"` as one line break. -/
def normalizeCRLF : List Char → List Char
  | '\r' :: '\n' :: s => '\n' :: normalizeCRLF s
  | c :: s => c :: normalizeCRLF s
  | [] => []

/-- Accumulator loop for `pySplitlines`: cut at every line-boundary character;
a trailing segment without a final boundary still forms a line. -/
def slGo : List Char → List Char → List (List Char)
  | acc, [] => if acc.isEmpty then [] else [acc.reverse]
  | acc, c :: s => if isLineBoundary c then acc.reverse :: slGo [] s else slGo (c :: acc) s

/-- Python `str.splitlines`. -/
def pySplitlines (s : List Char) : List (List Char) := slGo [] (normalizeCRLF s)

/-- Python `sep.join(pieces)`. -/
def joinSep (sep : List Char) : List (List Char) → List Char
  | [] => []
  | [x] => x
  | x :: y :: t => x ++ sep ++ joinSep sep (y :: t)

/-- Python `int()` on an unsigned decimal numeral; on any other string (for the
script: the empty string) `int()` raises `ValueError`, modelled as `none`. -/
def natFromDigits? (s : List Char) : Option Nat :=
  if s ≠ [] ∧ s.all (·.isDigit) then
    some (s.foldl (fun n c => n * 10 + (c.toNat - 48)) 0)
  else none

/-- Python `str()` of a nonnegative integer, e.g. inside an f-string. -/
def natToChars (n : Nat) : List Char := Nat.toDigits 10 n

/-- `get_release_version` (source lines 123–133): split the old version on
`"."`, parse the year component, build the suggested default (`old_version`
with its trailing component incremented when the old year is not older than the
current two-digit year, else `"YY.1"` for the current year), then let the
operator override it; a blank response accepts the default.  The clock year is
passed explicitly; parse failures (ValueError) are `none`. -/
def get_release_version (old_version : List Char) (current_year : Nat)
    (response : List Char) : Option (List Char) :=
  let parts := pySplit ['.'] old_version
  match parts.head? with
  | none => none
  | some p0 =>
    match natFromDigits? p0 with
    | none => none
    | some old_year =>
      let likely? : Option (List Char) :=
        if current_year ≤ old_year then
          match parts.getLast? with
          | none => none
          | some pl =>
            match natFromDigits? pl with
            | none => none
            | some lastN => some (joinSep ['.'] (parts.dropLast ++ [natToChars (lastN + 1)]))
        else some (natToChars current_year ++ ['.', '1'])
      match likely? with
      | none => none
      | some likely => some (if (pyStrip response).isEmpty then likely else pyStrip response)

/-- `get_next_version` (source lines 141–151): parse `parts[0]` and `parts[1]`;
if the minor component exceeds 3 the suggested default is
`f"{current_year + 1}.1"` built from the clock year, otherwise
`f"{year}.{minor + 1}"` built from the parsed components; the operator may
override, blank accepts the default. -/
def get_next_version (current_version : List Char) (current_year : Nat)
    (response : List Char) : Option (List Char) :=
  let parts := pySplit ['.'] current_version
  match parts.get? 0 with
  | none => none
  | some p0 =>
    match parts.get? 1 with
    | none => none
    | some p1 =>
      match natFromDigits? p0 with
      | none => none
      | some year =>
        match natFromDigits? p1 with
        | none => none
        | some minor =>
          let likely : List Char :=
            if 3 < minor then natToChars (current_year + 1) ++ ['.', '1']
            else natToChars year ++ '.' :: natToChars (minor + 1)
          some (if (pyStrip response).isEmpty then likely else pyStrip response)

/-- `is_point_release` (source lines 154–155): `version.count(".") > 1`. -/
def is_point_release (version : List Char) : Bool := 1 < version.count '.'

/-- `affirmative` (source lines 48–49):
`response.lower() == "y" or not response.strip()`. -/
def affirmative (response : List Char) : Bool :=
  pyLower response == ['y'] || (pyStrip response).isEmpty

/-- The literal section marker `"== Release Notes =="`. -/
def relNotesMarker : List Char := "== Release Notes ==".toList

/-- The literal section marker `"== Changelog =="`. -/
def changelogMarker : List Char := "== Changelog ==".toList

/-- Text of `BUG_TEMPLATE` (source lines 26–41) strictly between the two
section markers, with the report fields substituted. -/
def bugTemplateMiddle (newRelease timeSpan numContributors numDomains numBugs : List Char) :
    List Char :=
  "\n\nCloud-init release ".toList ++ newRelease ++ " is now available\n\nThe ".toList ++
  newRelease ++ " release:\n * spanned about ".toList ++ timeSpan ++ "\n * had ".toList ++
  numContributors ++ " contributors from ".toList ++ numDomains ++ " domains\n * fixed ".toList ++
  numBugs ++ " Launchpad issues\n\nHighlights:\n  <TODO_SUMMARIZED_HIGHLIGHTS>\n\n".toList

/-- `BUG_TEMPLATE.format(...)`: the complete rendered bug description. -/
def bugTemplateFormat
    (newRelease timeSpan numContributors numDomains numBugs changelog : List Char) : List Char :=
  relNotesMarker ++ bugTemplateMiddle newRelease timeSpan numContributors numDomains numBugs ++
  changelogMarker ++ ('\n' :: changelog) ++ ['\n']

/-- Source lines 348–353 (`upload_to_launchpad`): split the stored description
on the two markers (index 1 of the first split; tuple unpacking requires the
second split to yield exactly two parts, else ValueError), strip the release
notes, and rebuild the changelog from all lines after the first one.  Raised
`IndexError`/`ValueError` is modelled as `none`. -/
def extractSections (desc : List Char) : Option (List Char × List Char) :=
  match (pySplit relNotesMarker desc).get? 1 with
  | none => none
  | some seg =>
    match pySplit changelogMarker seg with
    | [rn, cl] => some (pyStrip rn, pyRstrip (joinSep ['\n'] ((pySplitlines cl).drop 1)))
    | _ => none

/-- JSON-serialisable values the script stores in the release cache: strings
(`old_version`, `changelog`, `rpm_path`, a declined bug id), integers
(a created bug id) and booleans (`premerge-complete`). -/
inductive Value where
  | vstr : List Char → Value
  | vint : Int → Value
  | vbool : Bool → Value
deriving DecidableEq

/-- One version's field mapping inside the cache file. -/
abbrev Fields := List (String × Value)

/-- The whole persisted store: version string → field mapping.  Python dicts
are modelled as association lists with insert-or-update assignment. -/
abbrev Store := List (String × Fields)

/-- Dict lookup `d[k]`, `none` when the key is absent (a raised `KeyError` at
the call sites that do not catch it). -/
def alGet {α : Type} (k : String) : List (String × α) → Option α
  | [] => none
  | (k', v) :: rest => if k' = k then some v else alGet k rest

/-- Dict assignment `d[k] = v`: update in place or append. -/
def alSet {α : Type} (k : String) (v : α) : List (String × α) → List (String × α)
  | [] => [(k, v)]
  | (k', v') :: rest => if k' = k then (k, v) :: rest else (k', v') :: alSet k v rest

/-- `CachedDict` (source lines 83–110): the version this instance serves plus
the in-memory copy of the whole store.  After every mutation the script
serialises `self.cache` wholesale to the backing file, so the persisted file
content always equals the `cache` field of the most recently saved state. -/
structure CachedDict where
  version : String
  cache : Store
deriving DecidableEq

/-- `CachedDict.__init__`: load the store from the backing file when it exists
(else start empty) and create an empty entry for this version if absent.  Note
the constructor does not save. -/
def CachedDict.init (version : String) (file : Option Store) : CachedDict :=
  let cache0 : Store := match file with | some st => st | none => []
  if alGet version cache0 = none then ⟨version, alSet version [] cache0⟩
  else ⟨version, cache0⟩

/-- `CachedDict.__setitem__`: `self.cache[self.version][key] = item`, then save.
If the version entry is missing the first subscript raises `KeyError`
(uncaught), modelled as `none`. -/
def CachedDict.setItem (c : CachedDict) (k : String) (v : Value) : Option CachedDict :=
  match alGet c.version c.cache with
  | none => none
  | some flds => some ⟨c.version, alSet c.version (alSet k v flds) c.cache⟩

/-- `CachedDict.__getitem__`: `try: return self.cache[self.version][key]
except KeyError:` — any missing version entry or missing field is caught and
the method returns `None`. -/
def CachedDict.getItem (c : CachedDict) (k : String) : Option Value :=
  match alGet c.version c.cache with
  | none => none
  | some flds => alGet k flds

/-- `CachedDict.purge`: reset this version's entry to an empty mapping, then
save. -/
def CachedDict.purge (c : CachedDict) : CachedDict :=
  ⟨c.version, alSet c.version [] c.cache⟩

/-- Mutating cache operations available to the script between reloads. -/
inductive CacheOp where
  | setOp : String → Value → CacheOp
  | purgeOp : CacheOp

/-- Run a sequence of cache mutations; a raised `KeyError` aborts (`none`). -/
def applyOps : List CacheOp → CachedDict → Option CachedDict
  | [], c => some c
  | CacheOp.setOp k v :: ops, c =>
    match c.setItem k v with
    | none => none
    | some c' => applyOps ops c'
  | CacheOp.purgeOp :: ops, c => applyOps ops c.purge

/-- Python truthiness of a cached value (used by `cache["old_version"] or ...`
and `if not package_name`). -/
def truthyValue : Value → Bool
  | Value.vstr s => !s.isEmpty
  | Value.vint n => n != 0
  | Value.vbool b => b

/-- Python `int()` on a string: an optional sign followed by a decimal numeral;
anything else (in particular the empty string) raises `ValueError`. -/
def pyIntOfStr (s : List Char) : Option Int :=
  match s with
  | '-' :: rest => (natFromDigits? rest).map (fun n => -(n : Int))
  | _ => (natFromDigits? s).map (fun n => (n : Int))

/-- Python `int()` applied to a cached value. -/
def pyIntOfValue : Value → Option Int
  | Value.vint n => some n
  | Value.vbool b => some (if b then 1 else 0)
  | Value.vstr s => pyIntOfStr s

/-- Python `int()` applied to the result of a cache read; `int(None)` raises
`TypeError`, modelled as `none`. -/
def pyIntOfOptValue : Option Value → Option Int
  | none => none
  | some v => pyIntOfValue v

/-- The value `create_release_bug` (source lines 187–232) produces for the bug
id: the Launchpad bug id (an integer) when the operator confirms creation, the
empty string when the operator declines. -/
def create_release_bug_id (confirmed : Bool) (createdId : Int) : Value :=
  if confirmed then Value.vint createdId else Value.vstr []

/-- Observable actions of one invocation of `main` (source lines 533–600),
one constructor per release stage / prompt the claims talk about.  The
interactive internals of each stage function are abstracted into its single
step. -/
inductive Step where
  | purgeCache
  | promptOldVersion
  | createReleaseBug
  | prepareGitBranch
  | premergePause
  | postMergePrompt
  | checkoutMainAndPull
  | tagRelease
  | buildAndUpload
  | closeAllBugs
  | uploadCopr
  | email
deriving DecidableEq

/-- How one invocation of `main` terminates. -/
inductive Outcome where
  | exited0
  | exited1
  | crashed
deriving DecidableEq

/-- Environment of one invocation: the operator's inputs and the results of
the external collaborators, which the script cannot influence. -/
structure Env where
  oldVersionInput : List Char
  createConfirmed : Bool
  createdBugId : Int
  changelogText : List Char
  mergeResponse : List Char
  checkoutProceeds : Bool

/-- Result of one invocation of `main`: the steps that ran in order, the final
in-memory cache (whose `cache` field is also the persisted file content after
the last save), and the exit behaviour. -/
structure RunResult where
  steps : List Step
  cache : CachedDict
  outcome : Outcome

/-- `args.stage in ["all", "create-release-bug", "prepare-git-branch"]`. -/
def stageInPremerge (stage : String) : Bool :=
  stage = "all" || stage = "create-release-bug" || stage = "prepare-git-branch"

/-- `args.stage in ["all", "create-release-bug"]`. -/
def stageInCreate (stage : String) : Bool :=
  stage = "all" || stage = "create-release-bug"

/-- `args.stage in ["all", "prepare-git-branch"]`. -/
def stageInPrepare (stage : String) : Bool :=
  stage = "all" || stage = "prepare-git-branch"

/-- Tail of the pre-merge block (source lines 554–563): print the nag message,
set `premerge-complete` to `True` (which saves the store) and exit 0. -/
def premergeRun3 (c : CachedDict) (steps : List Step) : RunResult :=
  match c.setItem "premerge-complete" (Value.vbool true) with
  | none => ⟨steps ++ [Step.premergePause], c, Outcome.crashed⟩
  | some c' => ⟨steps ++ [Step.premergePause], c', Outcome.exited0⟩

/-- Middle of the pre-merge block (source lines 550–553): for stages
`all`/`prepare-git-branch`, evaluate `int(cache["bug_id"])` (which raises on a
missing or non-numeric cached id) and run `prepare_git_branch`. -/
def premergeRun2 (stage : String) (c : CachedDict) (steps : List Step) : RunResult :=
  if stageInPrepare stage then
    match pyIntOfOptValue (c.getItem "bug_id") with
    | none => ⟨steps, c, Outcome.crashed⟩
    | some _ => premergeRun3 c (steps ++ [Step.prepareGitBranch])
  else premergeRun3 c steps

/-- `old_version := cache["old_version"] or get_old_version(cache)` (source
line 545): use the cached value when truthy, otherwise prompt the operator
(one step) and write the resolved old version into the cache; the cache write
raises `KeyError` (`none`) when the version entry is missing. -/
def premergeOld (env : Env) (c : CachedDict) : List Step × Option CachedDict :=
  match c.getItem "old_version" with
  | some v =>
    if truthyValue v then ([], some c)
    else ([Step.promptOldVersion], c.setItem "old_version" (Value.vstr env.oldVersionInput))
  | none => ([Step.promptOldVersion], c.setItem "old_version" (Value.vstr env.oldVersionInput))

/-- The pre-merge block of `main` (source lines 541–563): resolve
`old_version`, then for stages `all`/`create-release-bug` run
`create_release_bug` and cache `bug_id` and `changelog`, then continue with
branch preparation and the pause. -/
def premergeRun (stage : String) (env : Env) (c : CachedDict) : RunResult :=
  match premergeOld env c with
  | (stepsOld, none) => ⟨stepsOld, c, Outcome.crashed⟩
  | (stepsOld, some c1) =>
    if stageInCreate stage then
      match c1.setItem "bug_id" (create_release_bug_id env.createConfirmed env.createdBugId) with
      | none => ⟨stepsOld ++ [Step.createReleaseBug], c1, Outcome.crashed⟩
      | some c2 =>
        match c2.setItem "changelog" (Value.vstr env.changelogText) with
        | none => ⟨stepsOld ++ [Step.createReleaseBug], c2, Outcome.crashed⟩
        | some c3 => premergeRun2 stage c3 (stepsOld ++ [Step.createReleaseBug])
    else premergeRun2 stage c1 stepsOld

/-- Last part of the post-merge path (source lines 582–600): `close-all-bugs`,
`upload-copr`, then the email stage, which evaluates `int(cache["bug_id"])`
again. -/
def postRun3 (stage : String) (c : CachedDict) (steps : List Step) : RunResult :=
  let steps3 := steps ++ (if stage = "all" || stage = "close-all-bugs" then [Step.closeAllBugs] else [])
  let steps4 := steps3 ++ (if stage = "all" || stage = "upload-copr" then [Step.uploadCopr] else [])
  if stage = "all" || stage = "email" then
    match pyIntOfOptValue (c.getItem "bug_id") with
    | none => ⟨steps4, c, Outcome.crashed⟩
    | some _ => ⟨steps4 ++ [Step.email], c, Outcome.exited0⟩
  else ⟨steps4, c, Outcome.exited0⟩

/-- Post-merge path after the confirmation prompt (source lines 573–581):
`checkout_main_and_pull` (which can exit 1 after a declined prompt), then
`tag-release`, then `build-and-upload`, which evaluates `int(cache["bug_id"])`. -/
def postRun2 (stage : String) (env : Env) (c : CachedDict) (steps : List Step) : RunResult :=
  let steps1 := steps ++ [Step.checkoutMainAndPull]
  if !env.checkoutProceeds then ⟨steps1, c, Outcome.exited1⟩
  else
    let steps2 := steps1 ++ (if stage = "all" || stage = "tag-release" then [Step.tagRelease] else [])
    if stage = "all" || stage = "build-and-upload" then
      match pyIntOfOptValue (c.getItem "bug_id") with
      | none => ⟨steps2, c, Outcome.crashed⟩
      | some _ => postRun3 stage c (steps2 ++ [Step.buildAndUpload])
    else postRun3 stage c steps2

/-- Post-merge path of `main` (source lines 564–600), reached when the
pre-merge block was not entered: for the composite stage, first the
"Has git branch been merged (y/N)?" prompt, exiting 1 unless the response
lowercases to exactly `"y"`. -/
def postRun (stage : String) (env : Env) (c : CachedDict) : RunResult :=
  if stage = "all" then
    if pyLower env.mergeResponse = ['y'] then
      postRun2 stage env c [Step.postMergePrompt]
    else ⟨[Step.postMergePrompt], c, Outcome.exited1⟩
  else postRun2 stage env c []

/-- One invocation of `main` (source lines 533–600): `purge-cache` short
circuits; the pre-merge block runs exactly when the stage is one of
`all`/`create-release-bug`/`prepare-git-branch` *and* the cached
`premerge-complete` field `is not True`; otherwise control falls through to the
post-merge path. -/
def mainRun (stage : String) (env : Env) (c : CachedDict) : RunResult :=
  if stage = "purge-cache" then ⟨[Step.purgeCache], c.purge, Outcome.exited0⟩
  else if stageInPremerge stage = true ∧ c.getItem "premerge-complete" ≠ some (Value.vbool true) then
    premergeRun stage env c
  else postRun stage env c

/-! ## Association-list lemmas -/

theorem alGet_alSet_same {α : Type} (k : String) (v : α) (l : List (String × α)) :
    alGet k (alSet k v l) = some v := by
  induction l with
  | nil => simp [alGet, alSet]
  | cons hd tl ih =>
    obtain ⟨k', v'⟩ := hd
    by_cases h : k' = k
    · simp [alGet, alSet, h]
    · simp [alGet, alSet, h, ih]

theorem alGet_alSet_other {α : Type} (k k' : String) (v : α) (l : List (String × α))
    (h : k' ≠ k) : alGet k' (alSet k v l) = alGet k' l := by
  have h' : k ≠ k' := Ne.symm h
  induction l with
  | nil => simp [alGet, alSet, h']
  | cons hd tl ih =>
    obtain ⟨k0, v0⟩ := hd
    by_cases h0 : k0 = k
    · subst h0
      simp [alGet, alSet, h']
    · simp [alGet, alSet, h0, ih]

/-! ## Cache (CachedDict) lemmas -/

theorem init_hasEntry (v : String) (file : Option Store) :
    ∃ flds, alGet v (CachedDict.init v file).cache = some flds := by
  unfold CachedDict.init
  set cache0 : Store := match file with | some st => st | none => [] with h0
  by_cases h : alGet v cache0 = none
  · exact ⟨[], by simp [h, alGet_alSet_same]⟩
  · obtain ⟨flds, hflds⟩ := Option.ne_none_iff_exists'.mp h
    exact ⟨flds, by simp [h, hflds]⟩

theorem init_version (v : String) (file : Option Store) :
    (CachedDict.init v file).version = v := by
  unfold CachedDict.init
  split <;> { dsimp only; split <;> rfl }

theorem init_of_hasEntry (v : String) (st : Store) (flds : Fields)
    (h : alGet v st = some flds) : CachedDict.init v (some st) = ⟨v, st⟩ := by
  unfold CachedDict.init
  simp [h]

theorem setItem_of_hasEntry (c : CachedDict) (k : String) (x : Value) (flds : Fields)
    (h : alGet c.version c.cache = some flds) :
    c.setItem k x = some ⟨c.version, alSet c.version (alSet k x flds) c.cache⟩ := by
  unfold CachedDict.setItem
  simp [h]

theorem getItem_of_entry (c : CachedDict) (k : String) (flds : Fields)
    (h : alGet c.version c.cache = some flds) : c.getItem k = alGet k flds := by
  unfold CachedDict.getItem
  simp [h]

/-- C3: for every release version `V`, field `f` and value `x`, `set(V, f, x)`
on a freshly constructed cache (from any persisted file state) succeeds, a
following `get(V, f)` returns `x`, and — because `__setitem__` serialises the
whole store immediately — the same `get` still returns `x` after a simulated
process restart that reloads the cache from the store persisted by the set. -/
theorem cache_set_get_persist (V f : String) (x : Value) (file : Option Store) :
    ∃ c' : CachedDict, (CachedDict.init V file).setItem f x = some c' ∧
      c'.getItem f = some x ∧
      (CachedDict.init V (some c'.cache)).getItem f = some x := by
  obtain ⟨flds, hflds⟩ := init_hasEntry V file
  have hv := init_version V file
  have hflds' : alGet (CachedDict.init V file).version (CachedDict.init V file).cache
      = some flds := by rw [hv]; exact hflds
  refine ⟨⟨V, alSet V (alSet f x flds) (CachedDict.init V file).cache⟩, ?_, ?_, ?_⟩
  · rw [setItem_of_hasEntry _ _ _ flds hflds', hv]
  · rw [getItem_of_entry _ _ (alSet f x flds) (by simp [alGet_alSet_same]),
      alGet_alSet_same]
  · rw [init_of_hasEntry V _ (alSet f x flds) (by simp [alGet_alSet_same]),
      getItem_of_entry _ _ (alSet f x flds) (by simp [alGet_alSet_same]),
      alGet_alSet_same]

/-- C4: for every cache state and every field name, `purge` followed by `get`
returns the absent value (`None`), no matter which fields were set before; the
emptied entry is also what gets persisted, so the same holds after a reload of
the purged store. -/
theorem cache_purge_get_absent (c : CachedDict) (f : String) :
    c.purge.getItem f = none ∧
      (CachedDict.init c.version (some c.purge.cache)).getItem f = none := by
  constructor
  · rw [getItem_of_entry _ _ [] (by simp [CachedDict.purge, alGet_alSet_same])]
    rfl
  · rw [init_of_hasEntry c.version _ [] (by simp [CachedDict.purge, alGet_alSet_same]),
      getItem_of_entry _ _ [] (by simp [CachedDict.purge, alGet_alSet_same])]
    rfl

/-- Any sequence of cache mutations started from a state whose store has an
entry for its version succeeds and preserves that invariant. -/
theorem applyOps_inv (ops : List CacheOp) :
    ∀ c : CachedDict, (∃ flds, alGet c.version c.cache = some flds) →
      ∃ (c' : CachedDict) (flds' : Fields), applyOps ops c = some c' ∧
        c'.version = c.version ∧ alGet c'.version c'.cache = some flds' := by
  induction ops with
  | nil =>
    intro c ⟨flds, hflds⟩
    exact ⟨c, flds, rfl, rfl, hflds⟩
  | cons op ops ih =>
    intro c ⟨flds, hflds⟩
    cases op with
    | setOp k v =>
      have hset := setItem_of_hasEntry c k v flds hflds
      obtain ⟨c', flds', h1, h2, h3⟩ :=
        ih ⟨c.version, alSet c.version (alSet k v flds) c.cache⟩
          ⟨alSet k v flds, by simp [alGet_alSet_same]⟩
      exact ⟨c', flds', by simp [applyOps, hset, h1], h2, h3⟩
    | purgeOp =>
      obtain ⟨c', flds', h1, h2, h3⟩ :=
        ih c.purge ⟨[], by simp [CachedDict.purge, alGet_alSet_same]⟩
      exact ⟨c', flds', by simpa [applyOps] using h1, h2, h3⟩

/-- C9: starting from construction for version `V` (with or without a backing
file), every reachable cache state keeps an entry (possibly an empty field
mapping) for `V`: construction creates it, `set` writes into it, and `purge`
replaces it by an empty mapping instead of deleting the key.  Consequently
`get` never raises: on every reachable state it returns exactly the field
lookup in that entry, i.e. `none` (Python `None`) for a missing field rather
than an error. -/
theorem cache_version_entry_invariant (V : String) (file : Option Store) (ops : List CacheOp) :
    ∃ (c' : CachedDict) (flds' : Fields),
      applyOps ops (CachedDict.init V file) = some c' ∧ c'.version = V ∧
      alGet V c'.cache = some flds' ∧
      ∀ k : String, c'.getItem k = alGet k flds' := by
  have hinit : ∃ flds, alGet (CachedDict.init V file).version
      (CachedDict.init V file).cache = some flds := by
    rw [init_version V file]; exact init_hasEntry V file
  obtain ⟨c', flds', h1, h2, h3⟩ := applyOps_inv ops (CachedDict.init V file) hinit
  rw [init_version V file] at h2
  subst h2
  exact ⟨c', flds', h1, rfl, h3, fun k => getItem_of_entry c' k flds' h3⟩

/-! ## Strip lemmas -/

theorem pyRstrip_eq_nil_iff (s : List Char) :
    pyRstrip s = [] ↔ ∀ c ∈ s, pyIsSpace c = true := by
  unfold pyRstrip
  rw [List.reverse_eq_nil_iff, List.dropWhile_eq_nil_iff]
  constructor
  · intro h c hc
    exact h c (List.mem_reverse.mpr hc)
  · intro h c hc
    exact h c (List.mem_reverse.mp hc)

theorem pyStrip_eq_nil_iff (s : List Char) :
    pyStrip s = [] ↔ ∀ c ∈ s, pyIsSpace c = true := by
  unfold pyStrip pyLstrip
  rw [pyRstrip_eq_nil_iff]
  constructor
  · intro h c hc
    rcases List.mem_append.mp
        (by rw [List.takeWhile_append_dropWhile]; exact hc :
          c ∈ s.takeWhile pyIsSpace ++ s.dropWhile pyIsSpace) with h1 | h2
    · exact List.mem_takeWhile_imp h1
    · exact h c h2
  · intro h c hc
    exact h c (List.dropWhile_subset pyIsSpace hc)

/-- C7: the point-release predicate holds exactly when the version string
contains more than one `'.'` separator; in particular `"24.1"` is not a point
release and `"24.1.2"` is. -/
theorem point_release_sep_count :
    (∀ version : List Char, is_point_release version = true ↔ 1 < version.count '.') ∧
      is_point_release "24.1".toList = false ∧ is_point_release "24.1.2".toList = true := by
  refine ⟨fun version => ?_, by decide, by decide⟩
  simp [is_point_release]

/-- C10: `affirmative` accepts exactly the whitespace-only responses (the
default) and those whose lowercasing is exactly `"y"`; no surrounding
whitespace is removed before the `"y"` comparison, so `"yes"`, `"Y "` and
`" y"` are all declines while `""` and `"Y"` are accepted. -/
theorem affirmative_characterization :
    (∀ r : List Char,
      affirmative r = true ↔ (pyLower r = ['y'] ∨ ∀ c ∈ r, pyIsSpace c = true)) ∧
      affirmative "yes".toList = false ∧ affirmative "Y ".toList = false ∧
      affirmative " y".toList = false ∧ affirmative "".toList = true ∧
      affirmative "Y".toList = true ∧ affirmative "y".toList = true ∧
      affirmative "  ".toList = true := by
  refine ⟨fun r => ?_, by decide, by decide, by decide, by decide, by decide, by decide, by decide⟩
  unfold affirmative
  rw [Bool.or_eq_true, beq_iff_eq, List.isEmpty_iff, pyStrip_eq_nil_iff]

/-! ## Lemmas about the str.split model -/

theorem isPre_iff (u : List Char) : ∀ v, isPre u v = true ↔ ∃ w, v = u ++ w := by
  induction u with
  | nil => intro v; simp [isPre]
  | cons a u' ih =>
    intro v
    cases v with
    | nil =>
      simp only [isPre, Bool.false_eq_true, false_iff]
      rintro ⟨w, hw⟩
      exact absurd hw (by simp)
    | cons b v' =>
      simp only [isPre, Bool.and_eq_true, beq_iff_eq, ih v']
      constructor
      · rintro ⟨rfl, w, rfl⟩
        exact ⟨w, rfl⟩
      · rintro ⟨w, hw⟩
        rw [List.cons_append] at hw
        injection hw with h1 h2
        exact ⟨h1.symm, w, h2⟩

theorem isPre_append_self (u w : List Char) : isPre u (u ++ w) = true :=
  (isPre_iff u (u ++ w)).mpr ⟨w, rfl⟩

theorem isPre_length_le (u : List Char) :
    ∀ x y : List Char, u.length ≤ x.length → isPre u (x ++ y) = isPre u x := by
  induction u with
  | nil => intro x y _; simp [isPre]
  | cons a u' ih =>
    intro x y hlen
    cases x with
    | nil => simp at hlen
    | cons b x' =>
      simp only [List.cons_append, isPre, List.append_eq]
      rw [ih x' y (by simpa using hlen)]

theorem firstMatch_some (sep : List Char) :
    ∀ s i, firstMatch sep s = some i → ∃ a b, s = a ++ sep ++ b ∧ a.length = i := by
  intro s
  induction s with
  | nil =>
    intro i h
    simp only [firstMatch] at h
    by_cases hp : isPre sep [] = true
    · obtain ⟨w, hw⟩ := (isPre_iff sep []).mp hp
      have hsep : sep = [] := by
        cases sep with
        | nil => rfl
        | cons c t => exact absurd hw (by simp)
      rw [hp] at h
      simp at h
      exact ⟨[], [], by simp [hsep], by simp [← h]⟩
    · rw [Bool.not_eq_true] at hp
      rw [hp] at h
      simp at h
  | cons c s' ih =>
    intro i h
    simp only [firstMatch] at h
    by_cases hp : isPre sep (c :: s') = true
    · obtain ⟨w, hw⟩ := (isPre_iff sep (c :: s')).mp hp
      rw [hp] at h
      simp at h
      exact ⟨[], w, by simpa using hw, by simp [← h]⟩
    · rw [Bool.not_eq_true] at hp
      rw [hp] at h
      simp only [Bool.false_eq_true, if_false, Option.map_eq_some'] at h
      obtain ⟨j, hj, rfl⟩ := h
      obtain ⟨a, b, hab, hlen⟩ := ih j hj
      exact ⟨c :: a, b, by simp [hab], by simp [hlen]⟩

theorem firstMatch_none_of_not_occurs (sep s : List Char) (h : ¬ OccursIn sep s) :
    firstMatch sep s = none := by
  cases hfm : firstMatch sep s with
  | none => rfl
  | some i =>
    obtain ⟨a, b, hab, _⟩ := firstMatch_some sep s i hfm
    exact absurd ⟨a, b, hab⟩ h

theorem firstMatch_isSome_of_occurs (h : Char) (t : List Char) :
    ∀ a b s, s = a ++ (h :: t) ++ b → (firstMatch (h :: t) s).isSome = true := by
  intro a
  induction a with
  | nil =>
    intro b s hs
    subst hs
    simp only [List.nil_append, List.cons_append, firstMatch]
    have : isPre (h :: t) (h :: (t ++ b)) = true := by
      have := isPre_append_self (h :: t) b
      simpa using this
    simp [this]
  | cons c a' ih =>
    intro b s hs
    subst hs
    simp only [List.cons_append, List.append_assoc, firstMatch]
    split
    · simp
    · simp only [Option.isSome_map']
      have := ih b (a' ++ ((h :: t) ++ b)) (by simp [List.append_assoc])
      simpa [List.append_assoc] using this

theorem firstMatch_exact (h : Char) (t : List Char) :
    ∀ A B : List Char,
      (∀ j, j < A.length → isPre (h :: t) ((A ++ (h :: t)).drop j) = false) →
      firstMatch (h :: t) (A ++ (h :: t) ++ B) = some A.length := by
  intro A
  induction A with
  | nil =>
    intro B _
    simp only [List.nil_append, List.cons_append, firstMatch]
    have : isPre (h :: t) (h :: (t ++ B)) = true := by
      simpa using isPre_append_self (h :: t) B
    simp [this]
  | cons c A' ih =>
    intro B hA
    have hcond : isPre (h :: t) ((c :: A') ++ (h :: t) ++ B) = false := by
      have h0 := hA 0 (by simp)
      rw [List.drop_zero] at h0
      calc isPre (h :: t) ((c :: A') ++ (h :: t) ++ B)
      _ = isPre (h :: t) ((c :: A') ++ (h :: t)) :=
          isPre_length_le (h :: t) ((c :: A') ++ (h :: t)) B (by simp; omega)
      _ = false := h0
    have hrec := ih B (fun j hj => by
      have := hA (j + 1) (by simpa using Nat.succ_lt_succ hj)
      simpa using this)
    simp only [List.cons_append, List.append_assoc, List.append_eq, firstMatch]
      at hcond hrec ⊢
    rw [hcond]
    simp only [Bool.false_eq_true, if_false, hrec, Option.map_some', List.length_cons]

theorem pySplitFuel_none (sep s : List Char) (f : Nat) (h : firstMatch sep s = none) :
    pySplitFuel sep f s = [s] := by
  cases f with
  | zero => rfl
  | succ f' => simp [pySplitFuel, h]

theorem pySplitFuel_step (sep A B : List Char) (f : Nat)
    (h : firstMatch sep (A ++ sep ++ B) = some A.length) :
    pySplitFuel sep (f + 1) (A ++ sep ++ B) = A :: pySplitFuel sep f B := by
  have hdrop : List.drop (A.length + sep.length) (A ++ sep ++ B) = B := by
    rw [← List.length_append]
    exact List.drop_left (A ++ sep) B
  have htake : List.take A.length (A ++ sep ++ B) = A := by
    rw [List.append_assoc]
    exact List.take_left A (sep ++ B)
  simp only [pySplitFuel, h, htake, hdrop]

theorem occursIn_append (sep X Y : List Char) (h : OccursIn sep (X ++ Y)) :
    OccursIn sep X ∨ OccursIn sep Y ∨
      ∃ w u a b, sep = w ++ u ∧ X = a ++ w ∧ Y = u ++ b := by
  obtain ⟨a, b, hab⟩ := h
  rw [List.append_assoc] at hab
  rcases List.append_eq_append_iff.mp hab with ⟨w, hw1, hw2⟩ | ⟨w, hw1, hw2⟩
  · exact Or.inr (Or.inl ⟨w, b, by rw [hw2, List.append_assoc]⟩)
  · rcases List.append_eq_append_iff.mp hw2 with ⟨u, hu1, hu2⟩ | ⟨u, hu1, hu2⟩
    · exact Or.inl ⟨a, u, by rw [hw1, hu1, List.append_assoc]⟩
    · exact Or.inr (Or.inr ⟨w, u, a, b, hu1, hw1, hu2⟩)

theorem occursIn_cons (sep : List Char) (c : Char) (s : List Char)
    (h : OccursIn sep (c :: s)) : (∃ w, c :: s = sep ++ w) ∨ OccursIn sep s := by
  obtain ⟨a, b, hab⟩ := h
  cases a with
  | nil => exact Or.inl ⟨b, by simpa using hab⟩
  | cons c' a' =>
    rw [List.cons_append, List.cons_append] at hab
    injection hab with h1 h2
    exact Or.inr ⟨a', b, h2⟩

theorem occursIn_length (sep s : List Char) (h : OccursIn sep s) :
    sep.length ≤ s.length := by
  obtain ⟨a, b, rfl⟩ := h
  simp
  omega

theorem occursIn_single_mem (c : Char) (s : List Char) (h : OccursIn [c] s) : c ∈ s := by
  obtain ⟨a, b, rfl⟩ := h
  simp

theorem not_occursIn_of_containsSub_eq_false (sep s : List Char)
    (h : containsSub sep s = false) : ¬ OccursIn sep s := by
  intro hocc
  obtain ⟨a, b, hab⟩ := hocc
  cases sep with
  | nil =>
    unfold containsSub firstMatch at h
    cases s with
    | nil => simp [isPre] at h
    | cons c s' => simp [isPre] at h
  | cons hc tc =>
    have := firstMatch_isSome_of_occurs hc tc a b s hab
    unfold containsSub at h
    rw [this] at h
    exact absurd h (by simp)

theorem isPre_single_iff (c : Char) (l : List Char) :
    isPre [c] l = true ↔ l.head? = some c := by
  rw [isPre_iff]
  cases l with
  | nil => simp
  | cons b l' =>
    constructor
    · rintro ⟨w, hw⟩
      rw [List.singleton_append] at hw
      injection hw with h1 _
      simp [h1]
    · intro hb
      simp only [List.head?_cons, Option.some.injEq] at hb
      exact ⟨l', by simp [hb]⟩

theorem firstMatch_single_none (c : Char) (p : List Char) (h : c ∉ p) :
    firstMatch [c] p = none := by
  apply firstMatch_none_of_not_occurs
  intro hocc
  exact h (occursIn_single_mem c p hocc)

theorem firstMatch_single_exact (c : Char) (p B : List Char) (h : c ∉ p) :
    firstMatch [c] (p ++ [c] ++ B) = some p.length := by
  apply firstMatch_exact
  intro j hj
  rw [Bool.eq_false_iff]
  intro hpre
  have hhead := (isPre_single_iff c _).mp hpre
  rw [List.head?_drop] at hhead
  have hj' : (p ++ [c])[j]? = p[j]? := by
    rw [List.getElem?_append]
    simp [hj]
  rw [hj', List.getElem?_eq_some] at hhead
  obtain ⟨hlt, hget⟩ := hhead
  exact h (hget ▸ List.getElem_mem hlt)

theorem joinSep_length (c : Char) (parts : List (List Char)) :
    parts.length ≤ (joinSep [c] parts).length + 1 := by
  induction parts with
  | nil => simp
  | cons p rest ih =>
    cases rest with
    | nil => simp [joinSep]
    | cons q t =>
      simp only [joinSep, List.length_cons, List.length_append] at ih ⊢
      omega

theorem pySplitFuel_joinSep (c : Char) :
    ∀ (parts : List (List Char)) (f : Nat), parts ≠ [] →
      (∀ p ∈ parts, c ∉ p) → parts.length ≤ f + 1 →
      pySplitFuel [c] f (joinSep [c] parts) = parts := by
  intro parts
  induction parts with
  | nil => intro f h; exact absurd rfl h
  | cons p rest ih =>
    intro f _ hc hf
    cases rest with
    | nil =>
      rw [show joinSep [c] [p] = p from rfl]
      exact pySplitFuel_none [c] p f (firstMatch_single_none c p (hc p (by simp)))
    | cons q t =>
      rw [show joinSep [c] (p :: q :: t) = p ++ [c] ++ joinSep [c] (q :: t) from rfl]
      cases f with
      | zero => simp at hf
      | succ f' =>
        rw [pySplitFuel_step [c] p (joinSep [c] (q :: t)) f'
            (firstMatch_single_exact c p _ (hc p (by simp)))]
        rw [ih f' (by simp) (fun x hx => hc x (by simp [hx])) (by simpa using Nat.le_of_succ_le_succ hf)]

theorem pySplit_joinSep (c : Char) (parts : List (List Char)) (hne : parts ≠ [])
    (hc : ∀ p ∈ parts, c ∉ p) : pySplit [c] (joinSep [c] parts) = parts := by
  unfold pySplit
  exact pySplitFuel_joinSep c parts ((joinSep [c] parts).length + 1) hne hc
    (by have := joinSep_length c parts; omega)

theorem natFromDigits?_no_dot (p : List Char) (n : Nat) (h : natFromDigits? p = some n) :
    ('.' : Char) ∉ p := by
  unfold natFromDigits? at h
  split at h
  · rename_i hcond
    intro hmem
    have := List.all_eq_true.mp hcond.2 '.' hmem
    simp at this
  · simp at h

/-- C5: for every old version made of dot-separated numeric components and
every current two-digit year `Y`, when the operator accepts the default
(whitespace-only response): if the leading (year) component is not less than
`Y` the suggested release version is the old version with its trailing
component incremented by one, otherwise it is `"Y.1"`. -/
theorem release_version_default_policy (p0 pl : List Char) (rest : List (List Char))
    (Y y l : Nat) (response : List Char)
    (hy : natFromDigits? p0 = some y)
    (hlast : (p0 :: rest).getLast? = some pl)
    (hl : natFromDigits? pl = some l)
    (hdots : ∀ p ∈ p0 :: rest, ('.' : Char) ∉ p)
    (hresp : (pyStrip response).isEmpty = true) :
    get_release_version (joinSep ['.'] (p0 :: rest)) Y response
      = some (if Y ≤ y then joinSep ['.'] ((p0 :: rest).dropLast ++ [natToChars (l + 1)])
              else natToChars Y ++ ['.', '1']) := by
  unfold get_release_version
  rw [pySplit_joinSep '.' (p0 :: rest) (by simp) hdots]
  simp only [List.head?_cons, hy, hlast, hl, hresp]
  by_cases hYy : Y ≤ y <;> simp [hYy, hlast, hl, hresp]

/-- Witness: old version `"23.4"` with current year 24 yields the new series
`"24.1"`; old version `"24.2"` with current year 24 yields `"24.3"`. -/
theorem release_version_default_policy_app :
    (get_release_version (joinSep ['.'] ["23".toList, "4".toList]) 24 []
      = some (if 24 ≤ 23 then
          joinSep ['.'] ((["23".toList, "4".toList]).dropLast ++ [natToChars (4 + 1)])
        else natToChars 24 ++ ['.', '1'])) ∧
    (get_release_version (joinSep ['.'] ["24".toList, "2".toList]) 24 []
      = some (if 24 ≤ 24 then
          joinSep ['.'] ((["24".toList, "2".toList]).dropLast ++ [natToChars (2 + 1)])
        else natToChars 24 ++ ['.', '1'])) := by
  constructor
  · exact release_version_default_policy "23".toList "4".toList ["4".toList] 24 23 4 []
      (by decide) (by decide) (by decide) (by decide) (by decide)
  · exact release_version_default_policy "24".toList "2".toList ["2".toList] 24 24 2 []
      (by decide) (by decide) (by decide) (by decide) (by decide)

/-- C6 counterexample: with current clock year 25, the code's default next
version for `"24.4"` is `f"{current_year + 1}.1" = "26.1"`, not the claimed
`"YY+1.1" = "25.1"` built from the version's own year component. -/
theorem next_version_year_roll_cex :
    get_next_version "24.4".toList 25 [] = some "26.1".toList ∧
      get_next_version "24.4".toList 25 [] ≠ some "25.1".toList := by
  constructor
  · decide
  · decide

/-- C6 (amended): for every current version `"YY.N"` with numeric components
and every clock year `cy`, accepting the default: if the minor component
exceeds 3 the suggested next version is `"(cy+1).1"` (which equals `"YY+1.1"`
exactly when `YY` is the current clock year), otherwise the minor component is
incremented: `"YY.(N+1)"`. -/
theorem next_version_default_policy (ys ns : List Char) (y n cy : Nat) (response : List Char)
    (hy : natFromDigits? ys = some y) (hn : natFromDigits? ns = some n)
    (hresp : (pyStrip response).isEmpty = true) :
    get_next_version (ys ++ '.' :: ns) cy response
      = some (if 3 < n then natToChars (cy + 1) ++ ['.', '1']
              else natToChars y ++ '.' :: natToChars (n + 1)) := by
  have hjoin : ys ++ '.' :: ns = joinSep ['.'] [ys, ns] := by
    simp [joinSep]
  unfold get_next_version
  rw [hjoin, pySplit_joinSep '.' [ys, ns] (by simp)
    (by
      intro p hp
      simp only [List.mem_cons, List.not_mem_nil, or_false] at hp
      rcases hp with hp | hp
      · rw [hp]; exact natFromDigits?_no_dot ys y hy
      · rw [hp]; exact natFromDigits?_no_dot ns n hn)]
  simp only [List.get?_cons_zero, List.get?_cons_succ, hy, hn, hresp]
  by_cases h3 : 3 < n <;> simp [h3, hresp]

/-- Witness for the amended C6: `"24.1"` in clock year 24 yields `"24.2"`, and
`"24.4"` in clock year 24 yields `"25.1"`. -/
theorem next_version_default_policy_app :
    (get_next_version ("24".toList ++ '.' :: "1".toList) 24 []
      = some (if 3 < 1 then natToChars (24 + 1) ++ ['.', '1']
              else natToChars 24 ++ '.' :: natToChars (1 + 1))) ∧
    (get_next_version ("24".toList ++ '.' :: "4".toList) 24 []
      = some (if 3 < 4 then natToChars (24 + 1) ++ ['.', '1']
              else natToChars 24 ++ '.' :: natToChars (4 + 1))) := by
  constructor
  · exact next_version_default_policy "24".toList "1".toList 24 1 24 []
      (by decide) (by decide) (by decide)
  · exact next_version_default_policy "24".toList "4".toList 24 4 24 []
      (by decide) (by decide) (by decide)

/-! ## Lemmas about the main() stage model -/

theorem setItem_some_getItem (c c' : CachedDict) (k : String) (v : Value)
    (h : c.setItem k v = some c') :
    c'.version = c.version ∧ c'.getItem k = some v := by
  unfold CachedDict.setItem at h
  cases hget : alGet c.version c.cache with
  | none => rw [hget] at h; simp at h
  | some flds =>
    rw [hget] at h
    simp only [Option.some.injEq] at h
    subst h
    refine ⟨rfl, ?_⟩
    rw [getItem_of_entry _ _ (alSet k v flds) (by simp [alGet_alSet_same]), alGet_alSet_same]

theorem premergeRun3_exit0_flag (c : CachedDict) (steps : List Step)
    (h : (premergeRun3 c steps).outcome = Outcome.exited0) :
    (premergeRun3 c steps).cache.version = c.version ∧
    (premergeRun3 c steps).cache.getItem "premerge-complete" = some (Value.vbool true) := by
  unfold premergeRun3 at h ⊢
  cases hset : c.setItem "premerge-complete" (Value.vbool true) with
  | none => rw [hset] at h; simp at h
  | some c' =>
    dsimp only
    exact setItem_some_getItem c c' _ _ hset

theorem premergeRun2_exit0_flag (stage : String) (c : CachedDict) (steps : List Step)
    (h : (premergeRun2 stage c steps).outcome = Outcome.exited0) :
    (premergeRun2 stage c steps).cache.version = c.version ∧
    (premergeRun2 stage c steps).cache.getItem "premerge-complete" = some (Value.vbool true) := by
  unfold premergeRun2 at h ⊢
  by_cases hsp : stageInPrepare stage = true
  · rw [if_pos hsp] at h ⊢
    cases hint : pyIntOfOptValue (c.getItem "bug_id") with
    | none => rw [hint] at h; simp at h
    | some n =>
      rw [hint] at h
      dsimp only
      dsimp only at h
      exact premergeRun3_exit0_flag c _ h
  · rw [if_neg hsp] at h ⊢
    exact premergeRun3_exit0_flag c _ h

theorem premergeOld_some_version (env : Env) (c : CachedDict) (steps : List Step)
    (c1 : CachedDict) (h : premergeOld env c = (steps, some c1)) : c1.version = c.version := by
  unfold premergeOld at h
  split at h
  · split at h
    · injection h with h1 h2
      injection h2 with h2
      rw [← h2]
    · injection h with h1 h2
      exact (setItem_some_getItem c c1 _ _ h2).1
  · injection h with h1 h2
    exact (setItem_some_getItem c c1 _ _ h2).1

theorem premergeRun_exit0_flag (stage : String) (env : Env) (c : CachedDict)
    (h : (premergeRun stage env c).outcome = Outcome.exited0) :
    (premergeRun stage env c).cache.version = c.version ∧
    (premergeRun stage env c).cache.getItem "premerge-complete" = some (Value.vbool true) := by
  unfold premergeRun at h ⊢
  cases hold : premergeOld env c with
  | mk stepsOld oldRes =>
    rw [hold] at h
    cases oldRes with
    | none => simp at h
    | some c1 =>
      have hv1 : c1.version = c.version := premergeOld_some_version env c stepsOld c1 hold
      dsimp only at h ⊢
      by_cases hsc : stageInCreate stage = true
      · rw [if_pos hsc] at h ⊢
        revert h
        cases hc2 : c1.setItem "bug_id" (create_release_bug_id env.createConfirmed env.createdBugId) with
        | none => intro h; simp at h
        | some c2 =>
          intro h
          dsimp only at h ⊢
          have hv2 : c2.version = c1.version := (setItem_some_getItem c1 c2 _ _ hc2).1
          revert h
          cases hc3 : c2.setItem "changelog" (Value.vstr env.changelogText) with
          | none => intro h; simp at h
          | some c3 =>
            intro h
            dsimp only at h ⊢
            have hv3 : c3.version = c2.version := (setItem_some_getItem c2 c3 _ _ hc3).1
            have hres := premergeRun2_exit0_flag stage c3 _ h
            exact ⟨by rw [hres.1, hv3, hv2, hv1], hres.2⟩
      · rw [if_neg hsc] at h ⊢
        have hres := premergeRun2_exit0_flag stage c1 _ h
        exact ⟨by rw [hres.1, hv1], hres.2⟩

theorem premergeRun3_steps (c : CachedDict) (steps : List Step) :
    (premergeRun3 c steps).steps = steps ++ [Step.premergePause] := by
  unfold premergeRun3
  cases c.setItem "premerge-complete" (Value.vbool true) <;> rfl

theorem premergeRun2_steps (stage : String) (c : CachedDict) (steps : List Step) :
    ∃ t, (premergeRun2 stage c steps).steps = steps ++ t := by
  unfold premergeRun2
  by_cases hsp : stageInPrepare stage = true
  · rw [if_pos hsp]
    cases pyIntOfOptValue (c.getItem "bug_id") with
    | none => exact ⟨[], by simp⟩
    | some n =>
      exact ⟨[Step.prepareGitBranch, Step.premergePause], by rw [premergeRun3_steps]; simp⟩
  · rw [if_neg hsp]
    exact ⟨[Step.premergePause], premergeRun3_steps c steps⟩

theorem premergeOld_some_of_entry (env : Env) (c : CachedDict) (flds : Fields)
    (hflds : alGet c.version c.cache = some flds) :
    ∃ steps c1, premergeOld env c = (steps, some c1) := by
  unfold premergeOld
  have hset := setItem_of_hasEntry c "old_version" (Value.vstr env.oldVersionInput) flds hflds
  cases c.getItem "old_version" with
  | some v =>
    by_cases ht : truthyValue v = true
    · exact ⟨[], c, by simp [ht]⟩
    · exact ⟨[Step.promptOldVersion],
        ⟨c.version, alSet c.version (alSet "old_version" (Value.vstr env.oldVersionInput) flds) c.cache⟩,
        by simp [ht, hset]⟩
  | none =>
    exact ⟨[Step.promptOldVersion],
      ⟨c.version, alSet c.version (alSet "old_version" (Value.vstr env.oldVersionInput) flds) c.cache⟩,
      by simp [hset]⟩

theorem premergeRun_all_create_mem (env : Env) (c : CachedDict) (flds : Fields)
    (hflds : alGet c.version c.cache = some flds) :
    Step.createReleaseBug ∈ (premergeRun "all" env c).steps := by
  unfold premergeRun
  obtain ⟨stepsOld, c1, hold⟩ := premergeOld_some_of_entry env c flds hflds
  rw [hold]
  dsimp only
  rw [if_pos (by decide : stageInCreate "all" = true)]
  cases c1.setItem "bug_id" (create_release_bug_id env.createConfirmed env.createdBugId) with
  | none => simp
  | some c2 =>
    dsimp only
    cases c2.setItem "changelog" (Value.vstr env.changelogText) with
    | none => simp
    | some c3 =>
      dsimp only
      obtain ⟨t, ht⟩ := premergeRun2_steps "all" c3 (stepsOld ++ [Step.createReleaseBug])
      rw [ht]
      simp

theorem postRun3_steps (stage : String) (c : CachedDict) (steps : List Step) :
    ∃ t, (postRun3 stage c steps).steps = steps ++ t ∧
      ∀ x ∈ t, x = Step.closeAllBugs ∨ x = Step.uploadCopr ∨ x = Step.email := by
  have hmem : ∀ x : Step,
      x ∈ (if stage = "all" || stage = "close-all-bugs" then [Step.closeAllBugs]
            else ([] : List Step)) ++
          (if stage = "all" || stage = "upload-copr" then [Step.uploadCopr] else []) →
      x = Step.closeAllBugs ∨ x = Step.uploadCopr ∨ x = Step.email := by
    intro x hx
    rcases List.mem_append.mp hx with h | h <;> split at h <;> simp at h <;> tauto
  unfold postRun3
  dsimp only
  split
  · cases pyIntOfOptValue (c.getItem "bug_id") with
    | none => exact ⟨_, by simp only [List.append_assoc], hmem⟩
    | some n =>
      refine ⟨(if stage = "all" || stage = "close-all-bugs" then [Step.closeAllBugs]
          else ([] : List Step)) ++
          ((if stage = "all" || stage = "upload-copr" then [Step.uploadCopr] else []) ++
            [Step.email]),
        by simp only [List.append_assoc], ?_⟩
      intro x hx
      simp only [List.append_assoc, List.mem_append] at hx
      rcases hx with h | h | h
      · exact hmem x (List.mem_append.mpr (Or.inl h))
      · exact hmem x (List.mem_append.mpr (Or.inr h))
      · simp at h; tauto
  · exact ⟨_, by simp only [List.append_assoc], hmem⟩

theorem postRun2_steps (stage : String) (env : Env) (c : CachedDict) (steps : List Step) :
    ∃ t, (postRun2 stage env c steps).steps = steps ++ t ∧
      ∀ x ∈ t, x = Step.checkoutMainAndPull ∨ x = Step.tagRelease ∨ x = Step.buildAndUpload ∨
        x = Step.closeAllBugs ∨ x = Step.uploadCopr ∨ x = Step.email := by
  unfold postRun2
  dsimp only
  split
  · exact ⟨[Step.checkoutMainAndPull], rfl, by intro x hx; simp at hx; tauto⟩
  · have htag : ∀ x : Step,
        x ∈ (if stage = "all" || stage = "tag-release" then [Step.tagRelease]
              else ([] : List Step)) →
        x = Step.tagRelease := by
      intro x hx
      split at hx <;> simp at hx
      tauto
    split
    · cases pyIntOfOptValue (c.getItem "bug_id") with
      | none =>
        refine ⟨[Step.checkoutMainAndPull] ++
          (if stage = "all" || stage = "tag-release" then [Step.tagRelease] else []),
          by simp only [List.append_assoc], ?_⟩
        intro x hx
        rcases List.mem_append.mp hx with h | h
        · simp at h; tauto
        · have := htag x h; tauto
      | some n =>
        obtain ⟨t3, ht3, hmem3⟩ := postRun3_steps stage c
          ((steps ++ [Step.checkoutMainAndPull] ++
            (if stage = "all" || stage = "tag-release" then [Step.tagRelease] else [])) ++
            [Step.buildAndUpload])
        refine ⟨[Step.checkoutMainAndPull] ++
          ((if stage = "all" || stage = "tag-release" then [Step.tagRelease] else []) ++
            ([Step.buildAndUpload] ++ t3)), ?_, ?_⟩
        · rw [ht3]; simp only [List.append_assoc]
        · intro x hx
          simp only [List.mem_append] at hx
          rcases hx with h | h | h | h
          · simp at h; tauto
          · have := htag x h; tauto
          · simp at h; tauto
          · have := hmem3 x h; tauto
    · obtain ⟨t3, ht3, hmem3⟩ := postRun3_steps stage c
        (steps ++ [Step.checkoutMainAndPull] ++
          (if stage = "all" || stage = "tag-release" then [Step.tagRelease] else []))
      refine ⟨[Step.checkoutMainAndPull] ++
        ((if stage = "all" || stage = "tag-release" then [Step.tagRelease] else []) ++ t3),
        ?_, ?_⟩
      · rw [ht3]; simp only [List.append_assoc]
      · intro x hx
        simp only [List.mem_append] at hx
        rcases hx with h | h | h
        · simp at h; tauto
        · have := htag x h; tauto
        · have := hmem3 x h; tauto

theorem postRun_skips (stage : String) (env : Env) (c : CachedDict) :
    Step.createReleaseBug ∉ (postRun stage env c).steps ∧
    Step.prepareGitBranch ∉ (postRun stage env c).steps ∧
    Step.premergePause ∉ (postRun stage env c).steps ∧
    (stage = "all" → (postRun stage env c).steps.head? = some Step.postMergePrompt) := by
  unfold postRun
  have hpost2 : ∀ steps0 : List Step,
      (∀ x ∈ steps0, x = Step.postMergePrompt) →
      Step.createReleaseBug ∉ (postRun2 stage env c steps0).steps ∧
      Step.prepareGitBranch ∉ (postRun2 stage env c steps0).steps ∧
      Step.premergePause ∉ (postRun2 stage env c steps0).steps := by
    intro steps0 h0
    obtain ⟨t, ht, hmem⟩ := postRun2_steps stage env c steps0
    rw [ht]
    refine ⟨?_, ?_, ?_⟩ <;>
    · intro hx
      rcases List.mem_append.mp hx with h | h
      · have := h0 _ h
        simp_all
      · have := hmem _ h
        simp_all
  split
  · rename_i hall
    split
    · obtain ⟨h1, h2, h3⟩ := hpost2 [Step.postMergePrompt] (by intro x hx; simpa using hx)
      obtain ⟨t, ht, hmem⟩ := postRun2_steps stage env c [Step.postMergePrompt]
      exact ⟨h1, h2, h3, fun _ => by rw [ht]; rfl⟩
    · exact ⟨by simp, by simp, by simp, fun _ => rfl⟩
  · rename_i hall
    obtain ⟨h1, h2, h3⟩ := hpost2 [] (by intro x hx; simp at hx)
    exact ⟨h1, h2, h3, fun h => absurd h hall⟩

theorem getItem_some_entry (c : CachedDict) (k : String) (v : Value)
    (h : c.getItem k = some v) :
    ∃ flds, alGet c.version c.cache = some flds ∧ alGet k flds = some v := by
  unfold CachedDict.getItem at h
  cases hg : alGet c.version c.cache with
  | none => rw [hg] at h; simp at h
  | some flds => rw [hg] at h; exact ⟨flds, rfl, h⟩

theorem mainRun_all_flag_closed (env : Env) (c : CachedDict)
    (hflag : c.getItem "premerge-complete" = some (Value.vbool true)) :
    mainRun "all" env c = postRun "all" env c := by
  unfold mainRun
  rw [if_neg (by decide : ¬ ("all" : String) = "purge-cache"),
    if_neg (fun hand => hand.2 hflag)]

theorem mainRun_all_flag_open (env : Env) (c : CachedDict)
    (hflag : c.getItem "premerge-complete" ≠ some (Value.vbool true)) :
    mainRun "all" env c = premergeRun "all" env c := by
  unfold mainRun
  rw [if_neg (by decide : ¬ ("all" : String) = "purge-cache"),
    if_pos ⟨by decide, hflag⟩]

/-- C1: for the composite `all` stage the cached `premerge-complete` flag is
the sole guard for skipping the pre-merge work.  (i) On any cache state whose
store has an entry for its version, the `create_release_bug` step runs iff the
flag is not `True` — so the skip decision consults nothing but that field;
(ii) a run of the branch-preparation step likewise implies the flag was not
yet `True`; (iii) whenever the flag is `True` the invocation proceeds directly
to the post-merge confirmation prompt (it is the first step of the trace) and
neither bug-creation nor branch-preparation occurs; (iv) after a first
composite invocation that ran the pre-merge block to its normal exit, a second
invocation that reloads the persisted store skips both steps and starts at the
post-merge confirmation prompt. -/
theorem main_all_premerge_flag_gates_skip (env1 env2 : Env) (V : String)
    (file : Option Store) (c : CachedDict) (flds : Fields)
    (hflds : alGet c.version c.cache = some flds)
    (h1 : (mainRun "all" env1 (CachedDict.init V file)).outcome = Outcome.exited0)
    (h2 : Step.premergePause ∈ (mainRun "all" env1 (CachedDict.init V file)).steps) :
    (Step.createReleaseBug ∈ (mainRun "all" env2 c).steps ↔
        c.getItem "premerge-complete" ≠ some (Value.vbool true)) ∧
    (Step.prepareGitBranch ∈ (mainRun "all" env2 c).steps →
        c.getItem "premerge-complete" ≠ some (Value.vbool true)) ∧
    (c.getItem "premerge-complete" = some (Value.vbool true) →
      (mainRun "all" env2 c).steps.head? = some Step.postMergePrompt ∧
      Step.createReleaseBug ∉ (mainRun "all" env2 c).steps ∧
      Step.prepareGitBranch ∉ (mainRun "all" env2 c).steps) ∧
    ((mainRun "all" env2 (CachedDict.init V
        (some (mainRun "all" env1 (CachedDict.init V file)).cache.cache))).steps.head?
          = some Step.postMergePrompt ∧
      Step.createReleaseBug ∉ (mainRun "all" env2 (CachedDict.init V
        (some (mainRun "all" env1 (CachedDict.init V file)).cache.cache))).steps ∧
      Step.prepareGitBranch ∉ (mainRun "all" env2 (CachedDict.init V
        (some (mainRun "all" env1 (CachedDict.init V file)).cache.cache))).steps) := by
  have hskip : ∀ c' : CachedDict, c'.getItem "premerge-complete" = some (Value.vbool true) →
      (mainRun "all" env2 c').steps.head? = some Step.postMergePrompt ∧
      Step.createReleaseBug ∉ (mainRun "all" env2 c').steps ∧
      Step.prepareGitBranch ∉ (mainRun "all" env2 c').steps := by
    intro c' hflag
    rw [mainRun_all_flag_closed env2 c' hflag]
    obtain ⟨hc1, hc2, _, hh⟩ := postRun_skips "all" env2 c'
    exact ⟨hh rfl, hc1, hc2⟩
  refine ⟨?_, ?_, hskip c, ?_⟩
  · constructor
    · intro hmem hflag
      obtain ⟨_, hnc, _⟩ := hskip c hflag
      exact hnc hmem
    · intro hflag
      rw [mainRun_all_flag_open env2 c hflag]
      exact premergeRun_all_create_mem env2 c flds hflds
  · intro hmem hflag
    obtain ⟨_, _, hnp⟩ := hskip c hflag
    exact hnp hmem
  · by_cases hflag1 : (CachedDict.init V file).getItem "premerge-complete"
        = some (Value.vbool true)
    · -- first run already skipped: but then its trace has no premergePause
      rw [mainRun_all_flag_closed env1 _ hflag1] at h2
      obtain ⟨_, _, hnp, _⟩ := postRun_skips "all" env1 (CachedDict.init V file)
      exact absurd h2 hnp
    · rw [mainRun_all_flag_open env1 _ hflag1] at h1 ⊢
      obtain ⟨hver, hflag⟩ :=
        premergeRun_exit0_flag "all" env1 (CachedDict.init V file)
          (by rw [← mainRun_all_flag_open env1 _ hflag1]; rw [mainRun_all_flag_open env1 _ hflag1]; exact h1)
      obtain ⟨flds1, hentry1, hget1⟩ := getItem_some_entry _ _ _ hflag
      rw [hver, init_version V file] at hentry1
      have hreload : CachedDict.init V
          (some (premergeRun "all" env1 (CachedDict.init V file)).cache.cache)
            = ⟨V, (premergeRun "all" env1 (CachedDict.init V file)).cache.cache⟩ :=
        init_of_hasEntry V _ flds1 hentry1
      have hget2 : (CachedDict.init V
          (some (premergeRun "all" env1 (CachedDict.init V file)).cache.cache)).getItem
            "premerge-complete" = some (Value.vbool true) := by
        rw [hreload, getItem_of_entry _ _ flds1 (by exact hentry1)]
        exact hget1
      exact hskip _ hget2

/-- Witness for C1: a concrete first composite run for version `"24.1"` (bug
creation confirmed, id 5) exits 0 with the premerge pause in its trace, and
the second invocation on the reloaded store starts at the post-merge prompt. -/
theorem main_all_premerge_flag_gates_skip_app :
    (mainRun "all" ⟨"old".toList, false, 0, [], "y".toList, true⟩ (CachedDict.init "24.1"
      (some (mainRun "all" ⟨"23.4".toList, true, 5, "cl".toList, [], true⟩
        (CachedDict.init "24.1" none)).cache.cache))).steps.head?
      = some Step.postMergePrompt :=
  (main_all_premerge_flag_gates_skip ⟨"23.4".toList, true, 5, "cl".toList, [], true⟩
    ⟨"old".toList, false, 0, [], "y".toList, true⟩ "24.1" none
    ⟨"24.1", [("24.1", [])]⟩ [] (by decide) (by decide) (by decide)).2.2.2.1

/-- C8 (code bug): when the operator declines bug creation,
`create_release_bug` returns the empty string as the bug id and the cache
stores it; the composite invocation then evaluates `int(cache["bug_id"])`
(source line 552) on `""`, which raises `ValueError` and crashes the run
before `prepare_git_branch` — the re-prompt loop inside `prepare_git_branch`
(source lines 254–257) is never reached. -/
theorem declined_bug_id_int_crash :
    create_release_bug_id false 0 = Value.vstr [] ∧
    pyIntOfValue (Value.vstr []) = none ∧
    (mainRun "all" ⟨"23.4".toList, false, 0, "cl".toList, [], true⟩
      (CachedDict.init "24.2" none)).outcome = Outcome.crashed ∧
    Step.createReleaseBug ∈ (mainRun "all" ⟨"23.4".toList, false, 0, "cl".toList, [], true⟩
      (CachedDict.init "24.2" none)).steps ∧
    Step.prepareGitBranch ∉ (mainRun "all" ⟨"23.4".toList, false, 0, "cl".toList, [], true⟩
      (CachedDict.init "24.2" none)).steps := by
  refine ⟨rfl, rfl, by decide, by decide, by decide⟩

theorem normalizeCRLF_id : ∀ (s : List Char), ('\r' : Char) ∉ s → normalizeCRLF s = s := by
  intro s
  induction s with
  | nil => intro _; rfl
  | cons c s' ih =>
    intro h
    have hc : c ≠ '\r' := fun hh => h (by simp [hh])
    have hs' : ('\r' : Char) ∉ s' := fun hh => h (by simp [hh])
    rw [normalizeCRLF.eq_def]
    split
    · rename_i s2 heq
      injection heq with h1 _
      exact absurd h1 hc
    · rename_i c2 s2 heq
      injection heq with h1 h2
      subst h2
      rw [ih hs', h1]
    · rename_i heq
      simp at heq

theorem slGo_append_nl_ne : ∀ (s acc : List Char), slGo acc (s ++ ['\n']) ≠ [] := by
  intro s
  induction s with
  | nil =>
    intro acc
    show slGo acc ('\n' :: []) ≠ []
    simp [slGo, isLineBoundary]
  | cons c s' ih =>
    intro acc
    show slGo acc (c :: (s' ++ ['\n'])) ≠ []
    by_cases hb : isLineBoundary c = true
    · simp [slGo, hb]
    · simp only [slGo, hb, Bool.false_eq_true, if_false]
      exact ih (c :: acc)

theorem joinSep_cons_ne (sep x : List Char) (ys : List (List Char)) (h : ys ≠ []) :
    joinSep sep (x :: ys) = x ++ sep ++ joinSep sep ys := by
  cases ys with
  | nil => exact absurd rfl h
  | cons y t => rfl

theorem slGo_append_nl :
    ∀ (s : List Char), (∀ c ∈ s, isLineBoundary c = true → c = '\n') →
      ∀ acc, joinSep ['\n'] (slGo acc (s ++ ['\n'])) = acc.reverse ++ s := by
  intro s
  induction s with
  | nil =>
    intro _ acc
    show joinSep ['\n'] (slGo acc ('\n' :: [])) = acc.reverse ++ []
    simp [slGo, isLineBoundary, joinSep]
  | cons c s' ih =>
    intro hnl acc
    have hs' : ∀ x ∈ s', isLineBoundary x = true → x = '\n' :=
      fun x hx => hnl x (by simp [hx])
    show joinSep ['\n'] (slGo acc (c :: (s' ++ ['\n']))) = acc.reverse ++ (c :: s')
    by_cases hb : isLineBoundary c = true
    · have hcn : c = '\n' := hnl c (by simp) hb
      subst hcn
      rw [show slGo acc ('\n' :: (s' ++ ['\n'])) = acc.reverse :: slGo [] (s' ++ ['\n'])
          from by simp [slGo, isLineBoundary]]
      rw [joinSep_cons_ne _ _ _ (slGo_append_nl_ne s' [])]
      rw [ih hs' []]
      simp
    · rw [show slGo acc (c :: (s' ++ ['\n'])) = slGo (c :: acc) (s' ++ ['\n'])
          from by simp [slGo, hb]]
      rw [ih hs' (c :: acc)]
      simp

theorem firstMatch_exact' (sep : List Char) (hne : sep ≠ []) (A B : List Char)
    (hA : ∀ j, j < A.length → isPre sep ((A ++ sep).drop j) = false) :
    firstMatch sep (A ++ sep ++ B) = some A.length := by
  cases sep with
  | nil => exact absurd rfl hne
  | cons h t => exact firstMatch_exact h t A B hA

theorem cons_eq_append_head (h0 : Char) (t0 : List Char) (c0 : Char) (z w : List Char)
    (hw : c0 :: z = (h0 :: t0) ++ w) : h0 = c0 := by
  rw [List.cons_append] at hw
  injection hw with h1 _
  exact h1.symm

theorem not_occursIn_marker_tail (sep : List Char) (hne : sep ≠ [])
    (hhead : sep.head? ≠ some '\n') (hmemn : ('\n' : Char) ∉ sep) (hlen : 2 ≤ sep.length)
    (body : List Char) (hb : ¬ OccursIn sep body) :
    ¬ OccursIn sep (('\n' :: body) ++ ['\n']) := by
  intro hocc
  rw [List.cons_append] at hocc
  rcases occursIn_cons sep '\n' (body ++ ['\n']) hocc with ⟨w, hw⟩ | hocc2
  · cases sep with
    | nil => exact hne rfl
    | cons h0 t0 =>
      have h01 := cons_eq_append_head h0 t0 '\n' _ w hw
      exact hhead (by simp [h01])
  · rcases occursIn_append sep body ['\n'] hocc2 with h | h | ⟨w, u, a, b, hsep, hX, hY⟩
    · exact hb h
    · have := occursIn_length sep ['\n'] h
      simp at this
      omega
    · cases u with
      | nil =>
        rw [List.append_nil] at hsep
        exact hb ⟨a, [], by rw [hX, hsep, List.append_nil]⟩
      | cons cu u' =>
        rw [List.cons_append] at hY
        injection hY with h1 _
        have hmem : cu ∈ sep := by rw [hsep]; simp
        exact hmemn (h1 ▸ hmem)

theorem not_occursIn_rest (sep : List Char) (hne : sep ≠ [])
    (hhead : sep.head? ≠ some '\n') (hmemn : ('\n' : Char) ∉ sep) (hlen : 2 ≤ sep.length)
    (X body : List Char) (hX : ¬ OccursIn sep X) (hb : ¬ OccursIn sep body) :
    ¬ OccursIn sep (X ++ (('\n' :: body) ++ ['\n'])) := by
  intro hocc
  rcases occursIn_append sep X _ hocc with h | h | ⟨w, u, a, b, hsep, hXa, hY⟩
  · exact hX h
  · exact not_occursIn_marker_tail sep hne hhead hmemn hlen body hb h
  · cases u with
    | nil =>
      rw [List.append_nil] at hsep
      exact hX ⟨a, [], by rw [hXa, hsep, List.append_nil]⟩
    | cons cu u' =>
      rw [List.cons_append] at hY
      injection hY with h1 _
      have hmem : cu ∈ sep := by rw [hsep]; simp
      exact hmemn (h1 ▸ hmem)

theorem extractSections_format (mid body : List Char)
    (hmidA : ¬ OccursIn relNotesMarker (mid ++ changelogMarker))
    (hmidB : ∀ j, j < mid.length → isPre changelogMarker ((mid ++ changelogMarker).drop j) = false)
    (hb1 : ¬ OccursIn relNotesMarker body)
    (hb2 : ¬ OccursIn changelogMarker body)
    (hnl : ∀ c ∈ body, isLineBoundary c = true → c = '\n')
    (hrs : pyRstrip body = body) :
    extractSections (relNotesMarker ++ mid ++ changelogMarker ++ ('\n' :: body) ++ ['\n'])
      = some (pyStrip mid, body) := by
  have hM1ne : relNotesMarker ≠ [] := by decide
  have hM2ne : changelogMarker ≠ [] := by decide
  have hrest_no : ¬ OccursIn relNotesMarker
      ((mid ++ changelogMarker) ++ (('\n' :: body) ++ ['\n'])) :=
    not_occursIn_rest relNotesMarker hM1ne (by decide) (by decide) (by decide)
      (mid ++ changelogMarker) body hmidA hb1
  have htail_no : ¬ OccursIn changelogMarker (('\n' :: body) ++ ['\n']) :=
    not_occursIn_marker_tail changelogMarker hM2ne (by decide) (by decide) (by decide) body hb2
  have key1 : pySplit relNotesMarker
      (relNotesMarker ++ mid ++ changelogMarker ++ ('\n' :: body) ++ ['\n'])
      = [[], (mid ++ changelogMarker) ++ (('\n' :: body) ++ ['\n'])] := by
    have hshape : relNotesMarker ++ mid ++ changelogMarker ++ ('\n' :: body) ++ ['\n']
        = ([] ++ relNotesMarker) ++ ((mid ++ changelogMarker) ++ (('\n' :: body) ++ ['\n'])) := by
      simp only [List.nil_append, List.append_assoc]
    rw [hshape]
    unfold pySplit
    rw [pySplitFuel_step relNotesMarker [] _ _
      (firstMatch_exact' relNotesMarker hM1ne [] _ (fun j hj => by simp at hj))]
    rw [pySplitFuel_none _ _ _ (firstMatch_none_of_not_occurs _ _ hrest_no)]
  have key2 : pySplit changelogMarker ((mid ++ changelogMarker) ++ (('\n' :: body) ++ ['\n']))
      = [mid, ('\n' :: body) ++ ['\n']] := by
    unfold pySplit
    rw [pySplitFuel_step changelogMarker mid _ _
      (firstMatch_exact' changelogMarker hM2ne mid _ hmidB)]
    rw [pySplitFuel_none _ _ _ (firstMatch_none_of_not_occurs _ _ htail_no)]
  have hbody_nocr : ('\r' : Char) ∉ body := fun hmem =>
    absurd (hnl '\r' hmem (by decide)) (by decide)
  have hnocr : ('\r' : Char) ∉ ('\n' :: body) ++ ['\n'] := by
    intro hmem
    rcases List.mem_append.mp hmem with hmem' | hmem'
    · rcases List.mem_cons.mp hmem' with h' | h'
      · exact absurd h' (by decide)
      · exact hbody_nocr h'
    · simp at hmem'
  have hsl : pySplitlines (('\n' :: body) ++ ['\n']) = [] :: slGo [] (body ++ ['\n']) := by
    unfold pySplitlines
    rw [normalizeCRLF_id _ hnocr, List.cons_append]
    simp [slGo, isLineBoundary]
  have hjoin : joinSep ['\n'] (slGo [] (body ++ ['\n'])) = body := by
    simpa using slGo_append_nl body hnl []
  unfold extractSections
  rw [key1]
  simp only [List.get?_cons_succ, List.get?_cons_zero]
  rw [key2]
  dsimp only
  rw [hsl]
  simp only [List.drop_succ_cons, List.drop_zero]
  rw [hjoin, hrs]

theorem bug_description_round_trip (nr ts nc nd nb body : List Char)
    (hmidA : containsSub relNotesMarker
      (bugTemplateMiddle nr ts nc nd nb ++ changelogMarker) = false)
    (hmidB : ∀ j, j < (bugTemplateMiddle nr ts nc nd nb).length →
      isPre changelogMarker
        ((bugTemplateMiddle nr ts nc nd nb ++ changelogMarker).drop j) = false)
    (hb1 : containsSub relNotesMarker body = false)
    (hb2 : containsSub changelogMarker body = false)
    (hnl : ∀ c ∈ body, isLineBoundary c = true → c = '\n')
    (hrs : pyRstrip body = body) :
    extractSections (bugTemplateFormat nr ts nc nd nb body)
      = some (pyStrip (bugTemplateMiddle nr ts nc nd nb), body) :=
  extractSections_format (bugTemplateMiddle nr ts nc nd nb) body
    (not_occursIn_of_containsSub_eq_false _ _ hmidA) hmidB
    (not_occursIn_of_containsSub_eq_false _ _ hb1)
    (not_occursIn_of_containsSub_eq_false _ _ hb2) hnl hrs

set_option maxRecDepth 8192 in
theorem bug_description_round_trip_cr_cex :
    containsSub relNotesMarker ['a', '\r', 'b'] = false ∧
    containsSub changelogMarker ['a', '\r', 'b'] = false ∧
    pyRstrip ['a', '\r', 'b'] = ['a', '\r', 'b'] ∧
    (extractSections (bugTemplateFormat "24.1".toList "2 months".toList "30".toList "11".toList
        "42".toList ['a', '\r', 'b'])).map Prod.snd = some ['a', '\n', 'b'] ∧
    (extractSections (bugTemplateFormat "24.1".toList "2 months".toList "30".toList "11".toList
        "42".toList ['a', '\r', 'b'])).map Prod.snd ≠ some ['a', '\r', 'b'] := by
  refine ⟨by decide, by decide, by decide, by decide, by decide⟩

set_option maxRecDepth 8192 in
theorem bug_description_round_trip_app :
    extractSections (bugTemplateFormat "24.1".toList "2 months".toList "30".toList "11".toList
        "42".toList "fixed a bug\n - improved docs".toList)
      = some (pyStrip (bugTemplateMiddle "24.1".toList "2 months".toList "30".toList "11".toList
        "42".toList), "fixed a bug\n - improved docs".toList) :=
  bug_description_round_trip _ _ _ _ _ _ (by decide) (by decide) (by decide) (by decide)
    (by decide) (by decide)
